import Mathlib

/-!
Verification of the experiment-execution engine of the
Randomly-Projected-Additive-GPs repository (`rp_experiments.py`,
`training_routines.py`).

The Python source is shallowly embedded below.  Numeric data handled by the
source in floating point is modelled with exact rationals (`ℚ`) where the
source works with Python ints and floats manipulated through exact
operations (`floor`, `round`, comparisons), and with real numbers (`ℝ`)
where the source takes square roots (`std`).  The trainer and the tensor
conversion (torch / gpytorch, external to the repository) are modelled as an
oracle describing, for every fold and attempt, at which point the attempt
raises, if at all.
-/

namespace RPExperiments

/-- Python's builtin `round` on an exact value: round half to even
(banker's rounding).  Used for `n_folds = int(round(1 / split))` in
`_determine_folds`. -/
def pyRound (q : ℚ) : ℤ :=
  let f := q - ⌊q⌋
  if f < 1/2 then ⌊q⌋
  else if 1/2 < f then ⌊q⌋ + 1
  else if ⌊q⌋ % 2 = 0 then ⌊q⌋ else ⌊q⌋ + 1

/-- The loop body of `_determine_folds`:
`for i in range(n_folds): fold_starts.append(fold_starts[i] + n_per_fold + (1 if i < remaining else 0))`.
`last` is `fold_starts[i]` (the most recently appended entry), `i` the loop
index, and the final argument the number of iterations still to run. -/
def foldStartsGo (nPerFold : ℕ) (remaining : ℤ) : ℕ → ℕ → ℕ → List ℕ
  | _, _, 0 => []
  | last, i, Nat.succ m =>
    let next := last + nPerFold + (if (i : ℤ) < remaining then 1 else 0)
    next :: foldStartsGo nPerFold remaining next (i + 1) m

/-- `_determine_folds(split, dataset)` for a dataset of `N` rows:
`n_per_fold = int(np.floor(len(dataset) * split))`,
`n_folds = int(round(1 / split))`,
`remaining = len(dataset) - n_per_fold * n_folds`,
then the boundary list `[0, ...]` built by the loop above.
(`remaining` is a Python int and may be negative, hence `ℤ`.) -/
def determine_folds (split : ℚ) (N : ℕ) : List ℕ :=
  let nPerFold := (⌊(N : ℚ) * split⌋).toNat
  let nFolds := (pyRound (1 / split)).toNat
  let remaining : ℤ := (N : ℤ) - (nPerFold : ℤ) * (nFolds : ℤ)
  0 :: foldStartsGo nPerFold remaining 0 0 nFolds

/-- `_access_fold(dataset, fold_starts, fold)`:
`train = dataset.iloc[0:fold_starts[fold]]`,
`test = dataset.iloc[fold_starts[fold]:fold_starts[fold+1]]`,
`train = concat([train, dataset.iloc[fold_starts[fold+1]:]])`.
A Python slice `xs[a:b]` with `0 ≤ a, b` is `(xs.take b).drop a`
(both clamp at the length, exactly as slices do). -/
def access_fold {α : Type} (dataset : List α) (foldStarts : List ℕ) (fold : ℕ) :
    List α × List α :=
  let a := foldStarts.getD fold 0
  let b := foldStarts.getD (fold + 1) 0
  (dataset.take a ++ dataset.drop b, (dataset.take b).drop a)

/-- A single character of Python's `str.lower()` (ASCII range; the column
names this code compares — `'index'`, `'target'`, numeric names — are all
ASCII, where Python's and this definition's behavior coincide). -/
def charLower (c : Char) : Char :=
  if 65 ≤ c.toNat ∧ c.toNat ≤ 90 then Char.ofNat (c.toNat + 32) else c

/-- Python's `str.lower()` on ASCII strings. -/
def strLower (s : String) : String := ⟨s.data.map charLower⟩

/-- Feature-column selection used by `run_experiment` (lines 145-146) and
`_normalize_by_train` (lines 92-93):
`[x for x in cols if (x != 'target' and x.lower() != 'index')]`. -/
def featureCols (cols : List String) : List String :=
  cols.filter (fun c => decide (c ≠ "target" ∧ strLower c ≠ "index"))

/-- `get_small_datasets()`. -/
def get_small_datasets : List String :=
  ["challenger", "fertility", "concreteslump", "autos", "servo",
   "breastcancer", "machine", "yacht", "autompg", "housing", "forest",
   "stock", "pendulum", "energy"]

/-- `get_medium_datasets()`. -/
def get_medium_datasets : List String :=
  ["concrete", "solar", "airfoil",
   "wine", "gas", "skillcraft", "sml", "parkinsons", "pumadyn32nm"]

/-- `get_big_datasets()`. -/
def get_big_datasets : List String :=
  ["pol", "elevators", "bike", "kin40k", "protein", "tamielectric",
   "keggdirected", "slice", "keggundirected", "3droad", "song",
   "buzz", "houseelectric"]

/-- `get_datasets()`. -/
def get_datasets : List String :=
  get_small_datasets ++ get_medium_datasets ++ get_big_datasets

/-- The dataset-group dispatch at the top of `run_experiment_suite`
(lines 228-239): the `datasets` argument is compared against the literal
tags; an unrecognized value raises `ValueError("Unknown set of datasets")`.
`Except` models the raise. -/
def resolve_dataset_group (datasets : String) : Except String (List String) :=
  if datasets = "small" then .ok get_small_datasets
  else if datasets = "medium" then .ok get_medium_datasets
  else if datasets = "big" then .ok get_big_datasets
  else if datasets = "smalltomedium" then .ok (get_small_datasets ++ get_medium_datasets)
  else if datasets = "all" then .ok get_datasets
  else .error "Unknown set of datasets"

/-- Mean of a column: `train[f].mean()` (exact-arithmetic model of the float
computation; an empty column gives `0/0 = 0`, where pandas gives NaN —
irrelevant below since claims concern the guard structure). -/
noncomputable def colMean (xs : List ℝ) : ℝ := xs.sum / xs.length

/-- Sample standard deviation of a column: `train[f].std()`, pandas default
`ddof=1`, i.e. `sqrt(Σ (x - mean)² / (n - 1))`.  For `n ≤ 1` the exact model
yields `sqrt(s/0) = sqrt 0 = 0` where pandas yields NaN; both fail the
strict `sigma > 0` guard, so the observable branch taken is the same. -/
noncomputable def colStd (xs : List ℝ) : ℝ :=
  Real.sqrt ((xs.map (fun x => (x - colMean xs) ^ 2)).sum / ((xs.length : ℝ) - 1))

/-- Per-column body of `_normalize_by_train`: subtract the train mean `mu`
from the train and test column, compute `sigma = train[f].std()` of the
(already centered) train column, and divide both columns by `sigma` only
when `sigma > 0`. -/
noncomputable def normalizeCol (tr te : List ℝ) : List ℝ × List ℝ :=
  let mu := colMean tr
  let tr1 := tr.map (fun x => x - mu)
  let te1 := te.map (fun x => x - mu)
  let sigma := colStd tr1
  if 0 < sigma then (tr1.map (fun x => x / sigma), te1.map (fun x => x / sigma))
  else (tr1, te1)

/-- `_normalize_by_train(train, test)`.  A data frame is modelled
column-wise as a list of (column name, column values) pairs; `train` and
`test` are aligned positionally (pandas aligns the shared column labels).
The source touches exactly the columns `features + ['target']` — every
column except index-like ones — and leaves the rest untouched; columns are
independent, so the two passes of the source (all means first, then the
per-column std loop) are one pass per column here. -/
noncomputable def normalize_by_train (train test : List (String × List ℝ)) :
    List (String × List ℝ) × List (String × List ℝ) :=
  let cols := train.map Prod.fst
  let touched := featureCols cols ++ ["target"]
  ((train.zip test).map (fun p =>
      (p.1.1, if p.1.1 ∈ touched then (normalizeCol p.1.2 p.2.2).1 else p.1.2)),
   (train.zip test).map (fun p =>
      (p.2.1, if p.1.1 ∈ touched then (normalizeCol p.1.2 p.2.2).2 else p.2.2)))

/-- The random-restart selection loop of `train_exact_gp` (lines 503-528),
projected onto the data it branches on: the sequence of truncated-training
objective values `loss = -mll(output, trainY).item()`, one per restart, in
restart order.  `best` carries `(index of best_model, best_loss)`;
`best_loss` starts at `np.inf`, modelled by `none` (a finite loss always
satisfies `loss < np.inf`, and losses are modelled as exact rationals, so
the first restart always becomes the incumbent).  The update is
`if loss < best_loss`, a strict comparison. -/
def restartGo : ℕ → Option (ℕ × ℚ) → List ℚ → Option (ℕ × ℚ)
  | _, best, [] => best
  | i, best, l :: ls =>
    let best' := match best with
      | none => some (i, l)
      | some (bi, bl) => if l < bl then some (i, l) else some (bi, bl)
    restartGo (i + 1) best' ls

/-- Index of the restart candidate retained for the final-fit phase
(`model = best_model` after the loop); `none` iff there were no restarts. -/
def selectRestart (losses : List ℚ) : Option ℕ :=
  (restartGo 0 none losses).map Prod.fst

/-- A row of `results_list` in `run_experiment`.  A success row (lines
169-192) carries `fold`, `repeat`, `n = len(dataset)`, `d = len(features)`
and the payload computed from the trainer's return value (`mse`,
`train_time`, the model metrics and the additional metrics — opaque type
`M`, irrelevant to control flow).  An error row (lines 203-206) carries
`error = traceback.format_exc()`, `fold`, `n = len(dataset)` and
`d = len(features) - 2` (a Python int, possibly negative, hence `ℤ`). -/
inductive Row (M : Type) where
  | success (fold rep n d : ℕ) (pay : M)
  | error (trace : String) (fold n : ℕ) (d : ℤ)
  deriving DecidableEq

/-- What the external numerical code (torch tensor conversion, the trainer,
the metric functions) does during one attempt of one fold: the four
`torch.tensor` conversions raise, or the body of repeat iteration `r`
raises after repeats `0..r-1` completed (`r ≥ repeats` means no repeat
raises, i.e. the loop runs to completion), or nothing raises. -/
inductive AttemptOutcome where
  | tensorFail (trace : String)
  | trainerFail (r : ℕ) (trace : String)
  | allOk

/-- One iteration of the `while not succeed and n_errors < error_repeats`
body (lines 162-211) for fold `fold`, entered with `n_errors = k`:
returns the rows appended, whether `succeed` was set (it is set after each
successful repeat's append, line 193 — so exactly when at least one repeat
succeeded), and whether an exception was caught (so `n_errors` became
`k + 1`). -/
def runAttempt {M : Type} (pay : ℕ → ℕ → ℕ → M) (beh : ℕ → ℕ → AttemptOutcome)
    (fold n d repeats k : ℕ) : List (Row M) × Bool × Bool :=
  match beh fold k with
  | .tensorFail tr => ([.error tr fold n ((d : ℤ) - 2)], false, true)
  | .trainerFail r tr =>
    let s := min r repeats
    ((List.range s).map (fun i => Row.success fold i n d (pay fold k i)) ++
       (if r < repeats then [Row.error tr fold n ((d : ℤ) - 2)] else []),
     decide (0 < s), decide (r < repeats))
  | .allOk =>
    ((List.range repeats).map (fun i => Row.success fold i n d (pay fold k i)),
     decide (0 < repeats), false)

/-- The `while not succeed and n_errors < error_repeats` loop, entered with
`n_errors = k` and `succeed = False`; `fuel` bounds the number of
iterations still modelled.  Every iteration that neither sets `succeed` nor
catches an exception leaves the loop state unchanged — the source then
loops forever (only possible when `repeats = 0`); the fuel cutoff truncates
that divergence.  With `repeats ≥ 1` every iteration sets `succeed` or
increments `n_errors`, so `fuel = error_repeats + 1 - k` iterations are
never cut off. -/
def foldLoopGo {M : Type} (pay : ℕ → ℕ → ℕ → M) (beh : ℕ → ℕ → AttemptOutcome)
    (fold n d repeats errLimit : ℕ) : ℕ → ℕ → List (Row M)
  | 0, _ => []
  | fuel + 1, k =>
    if k < errLimit then
      match runAttempt pay beh fold n d repeats k with
      | (rows, true, _) => rows
      | (rows, false, true) => rows ++ foldLoopGo pay beh fold n d repeats errLimit fuel (k + 1)
      | (rows, false, false) => rows ++ foldLoopGo pay beh fold n d repeats errLimit fuel k
    else []

/-- The attempt loop of one fold, started with `succeed = False` and
`n_errors = 0`. -/
def foldLoop {M : Type} (pay : ℕ → ℕ → ℕ → M) (beh : ℕ → ℕ → AttemptOutcome)
    (fold n d repeats errLimit : ℕ) : List (Row M) :=
  foldLoopGo pay beh fold n d repeats errLimit (errLimit + 1) 0

/-- `run_experiment(training_routine, training_options, dataset, split, cv,
addl_metrics, repeats, error_repeats, ...)`, projected onto the result
rows it accumulates.  The dataset enters through its row count `N` and its
column names `cols` (`features`, line 146); the external numerical code
enters through the oracles `beh` and `pay`.  The fold loop
(`for fold in range(n_folds)`, with `break` on `fold > 0` when not `cv`)
runs the attempt loop per processed fold; `results_list` is the
concatenation of the per-fold rows in fold order. -/
def run_experiment {M : Type} (pay : ℕ → ℕ → ℕ → M) (beh : ℕ → ℕ → AttemptOutcome)
    (split : ℚ) (N : ℕ) (cols : List String) (cv : Bool)
    (repeats errLimit : ℕ) : List (Row M) :=
  let d := (featureCols cols).length
  let foldStarts := determine_folds split N
  let nFolds := foldStarts.length - 1
  let folds := if cv then List.range nFolds else (List.range nFolds).take 1
  folds.flatMap (fun fold => foldLoop pay beh fold N d repeats errLimit)

/-- Number of success rows tagged with fold `f`. -/
def countSuccessF {M : Type} (rows : List (Row M)) (f : ℕ) : ℕ :=
  rows.countP (fun r => match r with
    | .success fold _ _ _ _ => decide (fold = f)
    | .error _ _ _ _ => false)

/-- Number of error rows tagged with fold `f`. -/
def countErrorF {M : Type} (rows : List (Row M)) (f : ℕ) : ℕ :=
  rows.countP (fun r => match r with
    | .success _ _ _ _ _ => false
    | .error _ fold _ _ => decide (fold = f))

/-- The fold tag a result row carries. -/
def rowFold {M : Type} : Row M → ℕ
  | .success fold _ _ _ _ => fold
  | .error _ fold _ _ => fold

/-- Trivial payload oracle for concrete scenarios. -/
def payZero : ℕ → ℕ → ℕ → ℕ := fun _ _ _ => 0

/-- Concrete behavior for the C1 scenario: on fold 0, attempt 0, the
trainer raises at repeat 1 (after repeat 0 succeeded); every later attempt
would succeed completely. -/
def behPartialFail : ℕ → ℕ → AttemptOutcome := fun fold k =>
  if fold = 0 ∧ k = 0 then .trainerFail 1 "boom" else .allOk

/-- Concrete behavior for the C2 scenario: on fold 1 the trainer raises at
repeat 0 on every attempt; every other fold always succeeds. -/
def behFoldOneFails : ℕ → ℕ → AttemptOutcome := fun fold _ =>
  match fold with
  | 1 => .trainerFail 0 "E"
  | _ => .allOk

/-- Concrete behavior for the C8 scenario: fold 1 always raises at repeat 0
with trace "TRACE", every other fold succeeds. -/
def behFoldOneTrace : ℕ → ℕ → AttemptOutcome := fun fold _ =>
  match fold with
  | 1 => .trainerFail 0 "TRACE"
  | _ => .allOk

/-- The consecutive differences of a boundary list (`ℕ`-subtraction; the
lists below are non-decreasing, so no truncation occurs). -/
def boundaryDiffs (l : List ℕ) : List ℕ :=
  (l.zip l.tail).map (fun p => p.2 - p.1)

theorem boundaryDiffs_cons_cons (a b : ℕ) (l : List ℕ) :
    boundaryDiffs (a :: b :: l) = (b - a) :: boundaryDiffs (b :: l) := rfl

theorem foldStartsGo_length (p : ℕ) (rem : ℤ) :
    ∀ (m i last : ℕ), (foldStartsGo p rem last i m).length = m := by
  intro m
  induction m with
  | zero => intro i last; rfl
  | succ k ih =>
    intro i last
    simp only [foldStartsGo, List.length_cons, ih]

theorem foldStartsGo_chain (p : ℕ) (rem : ℤ) :
    ∀ (m i last : ℕ), List.Chain' (· ≤ ·) (last :: foldStartsGo p rem last i m) := by
  intro m
  induction m with
  | zero => intro i last; exact List.chain'_singleton _
  | succ k ih =>
    intro i last
    simp only [foldStartsGo]
    exact List.Chain'.cons (by omega) (ih (i + 1) _)

theorem foldStartsGo_diff_mem (p : ℕ) (rem : ℤ) :
    ∀ (m i last : ℕ), ∀ d ∈ boundaryDiffs (last :: foldStartsGo p rem last i m),
      d = p ∨ d = p + 1 := by
  intro m
  induction m with
  | zero => intro i last d hd; simp [boundaryDiffs, foldStartsGo] at hd
  | succ k ih =>
    intro i last d hd
    simp only [foldStartsGo] at hd
    rw [boundaryDiffs_cons_cons] at hd
    rcases List.mem_cons.mp hd with h | h
    · subst h
      by_cases hi : (i : ℤ) < rem
      · right; rw [if_pos hi]; omega
      · left; rw [if_neg hi]; omega
    · exact ih (i + 1) _ d h

theorem foldStartsGo_count (p : ℕ) (rem : ℤ) :
    ∀ (m i last : ℕ),
      (boundaryDiffs (last :: foldStartsGo p rem last i m)).count (p + 1) =
        (List.range' i m).countP (fun (j : ℕ) => decide ((j : ℤ) < rem)) := by
  intro m
  induction m with
  | zero => intro i last; rfl
  | succ k ih =>
    intro i last
    simp only [foldStartsGo, List.range'_succ, List.countP_cons]
    rw [boundaryDiffs_cons_cons, List.count_cons, ih (i + 1)]
    by_cases hi : (i : ℤ) < rem
    · rw [if_pos hi]
      simp only [hi, decide_True]
      have : last + p + 1 - last = p + 1 := by omega
      rw [this]
      simp
    · rw [if_neg hi]
      simp only [hi, decide_False]
      have : last + p + 0 - last = p := by omega
      rw [this]
      have : ¬(p = p + 1) := by omega
      simp [this]

theorem countP_lt_range (rem : ℤ) :
    ∀ m : ℕ, (List.range m).countP (fun (j : ℕ) => decide ((j : ℤ) < rem)) = min rem.toNat m := by
  intro m
  induction m with
  | zero => simp
  | succ k ih =>
    rw [List.range_succ, List.countP_append, ih]
    have hf : (List.countP (fun (j : ℕ) => decide ((j : ℤ) < rem)) [k]) =
        if (k : ℤ) < rem then 1 else 0 := by
      simp [List.countP_cons]
    rw [hf]
    by_cases h : (k : ℤ) < rem
    · rw [if_pos h]; omega
    · rw [if_neg h]; omega

theorem floor_le_pyRound (q : ℚ) : ⌊q⌋ ≤ pyRound q := by
  simp only [pyRound]
  split_ifs <;> omega

theorem pyRound_le_floor_add_one (q : ℚ) : pyRound q ≤ ⌊q⌋ + 1 := by
  simp only [pyRound]
  split_ifs <;> omega

/-- C4, amended: for every `N` and split fraction `s ∈ (0,1]`, the boundary
list of `_determine_folds` is non-decreasing, has length `round(1/s) + 1`,
starts at `0`, every consecutive difference is `⌊N·s⌋` or `⌊N·s⌋ + 1`, and
the number of differences equal to `⌊N·s⌋ + 1` is
`min (max (N - ⌊N·s⌋·round(1/s)) 0) (round(1/s))` (the source claim's
un-clamped value `N - ⌊N·s⌋·round(1/s)` only when that value already lies
in `[0, round(1/s)]`).  The first two conjuncts record that `⌊N·s⌋` and
`round(1/s)` are non-negative, so their `ℕ` images below are faithful. -/
theorem determine_folds_spec (s : ℚ) (N : ℕ) (h0 : 0 < s) (h1 : s ≤ 1) :
    ((⌊(N : ℚ) * s⌋.toNat : ℤ) = ⌊(N : ℚ) * s⌋) ∧
    (((pyRound (1 / s)).toNat : ℤ) = pyRound (1 / s)) ∧
    List.Chain' (· ≤ ·) (determine_folds s N) ∧
    (determine_folds s N).length = (pyRound (1 / s)).toNat + 1 ∧
    (determine_folds s N).head? = some 0 ∧
    (∀ d ∈ boundaryDiffs (determine_folds s N),
      d = ⌊(N : ℚ) * s⌋.toNat ∨ d = ⌊(N : ℚ) * s⌋.toNat + 1) ∧
    (boundaryDiffs (determine_folds s N)).count (⌊(N : ℚ) * s⌋.toNat + 1) =
      min ((N : ℤ) - ⌊(N : ℚ) * s⌋ * pyRound (1 / s)).toNat (pyRound (1 / s)).toNat := by
  have hp : (0 : ℤ) ≤ ⌊(N : ℚ) * s⌋ :=
    Int.floor_nonneg.mpr (mul_nonneg (Nat.cast_nonneg N) h0.le)
  have h1s : (1 : ℚ) ≤ 1 / s := (le_div_iff₀ h0).mpr (by linarith)
  have hfl : (1 : ℤ) ≤ ⌊(1 : ℚ) / s⌋ := Int.le_floor.mpr (by push_cast; linarith)
  have hnf : (0 : ℤ) ≤ pyRound (1 / s) := by
    have := floor_le_pyRound (1 / s)
    have : (1 : ℤ) ≤ pyRound ((1 : ℚ) / s) := le_trans hfl this
    omega
  refine ⟨Int.toNat_of_nonneg hp, Int.toNat_of_nonneg hnf, ?_, ?_, ?_, ?_, ?_⟩
  · exact foldStartsGo_chain _ _ _ _ _
  · simp only [determine_folds, List.length_cons, foldStartsGo_length]
  · rfl
  · intro d hd
    exact foldStartsGo_diff_mem _ _ _ _ _ d hd
  · simp only [determine_folds]
    rw [foldStartsGo_count, ← List.range_eq_range', countP_lt_range]
    rw [Int.toNat_of_nonneg hp, Int.toNat_of_nonneg hnf]

/-- C4 counterexample: at `s = 2/5`, `N = 100` (Python: `split = 0.4`,
`round(1/0.4) = round(2.5) = 2` by banker's rounding, and all float
computations involved are exact), every consecutive difference equals
`⌊N·s⌋ + 1 = 41`, so their number is `2`, while the claimed value
`N - ⌊N·s⌋·round(1/s) = 100 - 40·2` is `20`. -/
theorem determine_folds_count_counterexample :
    (boundaryDiffs (determine_folds (2/5) 100)).count (⌊(100 : ℚ) * (2/5)⌋.toNat + 1) = 2 ∧
    (100 : ℤ) - ⌊(100 : ℚ) * (2/5)⌋ * pyRound (1 / (2/5)) = 20 ∧
    (2 : ℤ) ≠ 20 := by
  have h1 : ⌊(100 : ℚ) * (2/5)⌋ = 40 := by
    rw [show (100 : ℚ) * (2/5) = ((40 : ℤ) : ℚ) by norm_num, Int.floor_intCast]
  have h2 : pyRound (1 / (2/5 : ℚ)) = 2 := by
    have e : (1 / (2/5 : ℚ)) = 5/2 := by norm_num
    have hf : ⌊(5/2 : ℚ)⌋ = 2 := by
      rw [Int.floor_eq_iff]
      norm_num
    rw [e]
    simp only [pyRound, hf]
    norm_num
  have hc : ((100 : ℕ) : ℚ) = (100 : ℚ) := by norm_num
  refine ⟨?_, ?_, by decide⟩
  · simp only [determine_folds, hc, h1, h2]
    decide
  · rw [h1, h2]
    decide

/-- Witness for `determine_folds_spec` at `s = 1`, `N = 5`:
boundaries `[0, 5]`. -/
theorem determine_folds_spec_witness :
    (0 < (1 : ℚ)) ∧ ((1 : ℚ) ≤ 1) ∧
    (((⌊(5 : ℚ) * 1⌋.toNat : ℤ) = ⌊(5 : ℚ) * 1⌋) ∧
     (((pyRound (1 / 1)).toNat : ℤ) = pyRound ((1 : ℚ) / 1)) ∧
     List.Chain' (· ≤ ·) (determine_folds 1 5) ∧
     (determine_folds 1 5).length = (pyRound ((1 : ℚ) / 1)).toNat + 1 ∧
     (determine_folds 1 5).head? = some 0 ∧
     (∀ d ∈ boundaryDiffs (determine_folds 1 5),
       d = ⌊(5 : ℚ) * 1⌋.toNat ∨ d = ⌊(5 : ℚ) * 1⌋.toNat + 1) ∧
     (boundaryDiffs (determine_folds 1 5)).count (⌊(5 : ℚ) * 1⌋.toNat + 1) =
       min ((5 : ℤ) - ⌊(5 : ℚ) * 1⌋ * pyRound ((1 : ℚ) / 1)).toNat
         (pyRound ((1 : ℚ) / 1)).toNat) :=
  ⟨one_pos, le_refl 1, determine_folds_spec 1 5 one_pos (le_refl 1)⟩

theorem drop_range_eq (n m : ℕ) : (List.range n).drop m = List.range' m (n - m) := by
  apply List.ext_getElem
  · simp
  · intro i h1 h2
    simp [List.getElem_drop, List.getElem_range, List.getElem_range']

theorem determine_folds_pairwise (s : ℚ) (N : ℕ) :
    (determine_folds s N).Pairwise (· ≤ ·) :=
  List.chain'_iff_pairwise.mp (foldStartsGo_chain _ _ _ _ _)

theorem getD_mono_of_pairwise (l : List ℕ) (h : l.Pairwise (· ≤ ·)) (i j : ℕ)
    (hij : i ≤ j) (hj : j < l.length) : l.getD i 0 ≤ l.getD j 0 := by
  rcases Nat.eq_or_lt_of_le hij with rfl | hlt
  · exact le_refl _
  · rw [List.getD_eq_getElem _ _ (lt_trans hlt hj), List.getD_eq_getElem _ _ hj]
    exact List.pairwise_iff_getElem.mp h i j _ _ hlt

/-- Shared characterization of `_access_fold` on the boundary list of
`_determine_folds`, used by the two fold-access claims below. -/
theorem access_fold_spec_aux (s : ℚ) (N f : ℕ)
    (hf : f + 1 < (determine_folds s N).length) :
    let fs := determine_folds s N
    let a := fs.getD f 0
    let b := fs.getD (f + 1) 0
    let train := (access_fold (List.range N) fs f).1
    let test := (access_fold (List.range N) fs f).2
    a ≤ b ∧
    (∀ i, i ∈ test ↔ (a ≤ i ∧ i < b ∧ i < N)) ∧
    test.Sorted (· < ·) ∧
    train = (List.range N).take a ++ (List.range N).drop b ∧
    (∀ i, i ∈ (List.range N).take a ↔ (i < a ∧ i < N)) ∧
    (∀ i, i ∈ (List.range N).drop b ↔ (b ≤ i ∧ i < N)) ∧
    ((List.range N).take a).Sorted (· < ·) ∧
    ((List.range N).drop b).Sorted (· < ·) ∧
    (∀ i, i ∈ train → i ∉ test) ∧
    (∀ i, i < N ↔ (i ∈ train ∨ i ∈ test)) := by
  intro fs a b train test
  have hab : a ≤ b :=
    getD_mono_of_pairwise fs (determine_folds_pairwise s N) f (f + 1) (by omega) hf
  have htest : test = List.range' a (min b N - a) := by
    show ((List.range N).take b).drop a = _
    rw [List.take_range, drop_range_eq]
  have htake : (List.range N).take a = List.range (min a N) := List.take_range ..
  have hdrop : (List.range N).drop b = List.range' b (N - b) := drop_range_eq ..
  have memtest : ∀ i, i ∈ test ↔ (a ≤ i ∧ i < b ∧ i < N) := by
    intro i
    rw [htest, List.mem_range'_1]
    omega
  have memtake : ∀ i, i ∈ (List.range N).take a ↔ (i < a ∧ i < N) := by
    intro i
    rw [htake, List.mem_range]
    omega
  have memdrop : ∀ i, i ∈ (List.range N).drop b ↔ (b ≤ i ∧ i < N) := by
    intro i
    rw [hdrop, List.mem_range'_1]
    omega
  have htrain : train = (List.range N).take a ++ (List.range N).drop b := rfl
  refine ⟨hab, memtest, ?_, htrain, memtake, memdrop, ?_, ?_, ?_, ?_⟩
  · rw [htest]; exact List.pairwise_lt_range' ..
  · rw [htake]; exact List.sorted_lt_range _
  · rw [hdrop]; exact List.pairwise_lt_range' ..
  · intro i hi
    rw [htrain, List.mem_append, memtake i, memdrop i] at hi
    rw [memtest i]
    omega
  · intro i
    rw [htrain, List.mem_append, memtake i, memdrop i, memtest i]
    omega

/-- C5: for every dataset size, every fold index valid for the boundary list
produced by `_determine_folds`, the `test` set of `_access_fold` is exactly
the rows with indices in `[boundaries[f], boundaries[f+1])` in original
(increasing) order, the `train` set is the rows before `boundaries[f]`
followed by the rows at/after `boundaries[f+1]`, each part in original
order, and the two row-index sets are disjoint with union the whole
dataset.  Rows are identified by their index (`List.range N`); `_access_fold`
is index-blind (pure `take`/`drop`/concat), so this is fully general. -/
theorem access_fold_partition (s : ℚ) (N f : ℕ)
    (hf : f + 1 < (determine_folds s N).length) :
    let fs := determine_folds s N
    let a := fs.getD f 0
    let b := fs.getD (f + 1) 0
    let train := (access_fold (List.range N) fs f).1
    let test := (access_fold (List.range N) fs f).2
    a ≤ b ∧
    (∀ i, i ∈ test ↔ (a ≤ i ∧ i < b ∧ i < N)) ∧
    test.Sorted (· < ·) ∧
    train = (List.range N).take a ++ (List.range N).drop b ∧
    (∀ i, i ∈ (List.range N).take a ↔ (i < a ∧ i < N)) ∧
    (∀ i, i ∈ (List.range N).drop b ↔ (b ≤ i ∧ i < N)) ∧
    ((List.range N).take a).Sorted (· < ·) ∧
    ((List.range N).drop b).Sorted (· < ·) ∧
    (∀ i, i ∈ train → i ∉ test) ∧
    (∀ i, i < N ↔ (i ∈ train ∨ i ∈ test)) :=
  access_fold_spec_aux s N f hf

/-- C10: rows at or beyond the final fold boundary (present when the
boundaries do not reach the dataset length) are in the `train` set of every
fold and in no fold's `test` set. -/
theorem trailing_rows_in_every_train (s : ℚ) (N f : ℕ)
    (hf : f + 1 < (determine_folds s N).length) :
    ∀ i, (determine_folds s N).getD ((determine_folds s N).length - 1) 0 ≤ i → i < N →
      i ∈ (access_fold (List.range N) (determine_folds s N) f).1 ∧
      i ∉ (access_fold (List.range N) (determine_folds s N) f).2 := by
  intro i hL hiN
  have hb : (determine_folds s N).getD (f + 1) 0 ≤
      (determine_folds s N).getD ((determine_folds s N).length - 1) 0 :=
    getD_mono_of_pairwise _ (determine_folds_pairwise s N) (f + 1)
      ((determine_folds s N).length - 1) (by omega) (by omega)
  obtain ⟨-, memtest, -, htrain, memtake, memdrop, -, -, -, -⟩ :=
    access_fold_spec_aux s N f hf
  constructor
  · rw [htrain, List.mem_append, memtake i, memdrop i]
    right
    omega
  · rw [memtest i]
    omega

theorem pyRound_intCast (z : ℤ) : pyRound (z : ℚ) = z := by
  simp only [pyRound, Int.floor_intCast, sub_self]
  norm_num

theorem determine_folds_third_nine : determine_folds (1/3) 9 = [0, 3, 6, 9] := by
  have h1 : ⌊((9 : ℕ) : ℚ) * (1/3)⌋ = 3 := by
    rw [show ((9 : ℕ) : ℚ) * (1/3) = ((3 : ℤ) : ℚ) by norm_num, Int.floor_intCast]
  have h2 : pyRound (1 / (1/3 : ℚ)) = 3 := by
    rw [show (1 / (1/3 : ℚ)) = ((3 : ℤ) : ℚ) by norm_num, pyRound_intCast]
  simp only [determine_folds, h1, h2]
  decide

/-- Witness for `access_fold_partition` at `s = 1/3`, `N = 9`, `f = 1`:
boundaries `[0, 3, 6, 9]`, test rows `[3, 4, 5]`, train rows
`[0, 1, 2, 6, 7, 8]`. -/
theorem access_fold_partition_witness :
    (1 + 1 < (determine_folds (1/3) 9).length) ∧
    (let fs := determine_folds (1/3) 9
     let a := fs.getD 1 0
     let b := fs.getD (1 + 1) 0
     let train := (access_fold (List.range 9) fs 1).1
     let test := (access_fold (List.range 9) fs 1).2
     a ≤ b ∧
     (∀ i, i ∈ test ↔ (a ≤ i ∧ i < b ∧ i < 9)) ∧
     test.Sorted (· < ·) ∧
     train = (List.range 9).take a ++ (List.range 9).drop b ∧
     (∀ i, i ∈ (List.range 9).take a ↔ (i < a ∧ i < 9)) ∧
     (∀ i, i ∈ (List.range 9).drop b ↔ (b ≤ i ∧ i < 9)) ∧
     ((List.range 9).take a).Sorted (· < ·) ∧
     ((List.range 9).drop b).Sorted (· < ·) ∧
     (∀ i, i ∈ train → i ∉ test) ∧
     (∀ i, i < 9 ↔ (i ∈ train ∨ i ∈ test))) :=
  ⟨by simp only [determine_folds_third_nine]; decide,
   access_fold_partition (1/3) 9 1 (by simp only [determine_folds_third_nine]; decide)⟩

/-- Witness for `trailing_rows_in_every_train` at `s = 1/3`, `N = 9`,
`f = 0` (here the final boundary equals the length, so the guarded range is
empty; the hypothesis `f + 1 < length` is discharged concretely). -/
theorem trailing_rows_in_every_train_witness :
    (0 + 1 < (determine_folds (1/3) 9).length) ∧
    (∀ i, (determine_folds (1/3) 9).getD ((determine_folds (1/3) 9).length - 1) 0 ≤ i →
      i < 9 →
      i ∈ (access_fold (List.range 9) (determine_folds (1/3) 9) 0).1 ∧
      i ∉ (access_fold (List.range 9) (determine_folds (1/3) 9) 0).2) :=
  ⟨by simp only [determine_folds_third_nine]; decide,
   trailing_rows_in_every_train (1/3) 9 0 (by simp only [determine_folds_third_nine]; decide)⟩

theorem restartGo_char (ls : List ℚ) :
    ∀ (i0 bi : ℕ) (bl : ℚ),
      ∃ ri rl, restartGo i0 (some (bi, bl)) ls = some (ri, rl) ∧
        (∀ x ∈ ls, rl ≤ x) ∧ rl ≤ bl ∧
        ((ri = bi ∧ rl = bl) ∨
         (∃ k, k < ls.length ∧ ri = i0 + k ∧ rl = ls.getD k 0 ∧ rl < bl ∧
           (∀ j, j < k → rl < ls.getD j 0))) := by
  induction ls with
  | nil =>
    intro i0 bi bl
    exact ⟨bi, bl, rfl, by simp, le_refl _, Or.inl ⟨rfl, rfl⟩⟩
  | cons l ls ih =>
    intro i0 bi bl
    show ∃ ri rl,
      restartGo (i0 + 1) (if l < bl then some (i0, l) else some (bi, bl)) ls = some (ri, rl) ∧ _
    by_cases hl : l < bl
    · rw [if_pos hl]
      obtain ⟨ri, rl, hres, hlow, hle, hcase⟩ := ih (i0 + 1) i0 l
      refine ⟨ri, rl, hres, ?_, le_trans hle hl.le, ?_⟩
      · intro x hx
        rcases List.mem_cons.mp hx with rfl | hx
        · exact hle
        · exact hlow x hx
      · rcases hcase with ⟨hri, hrl⟩ | ⟨k, hk, hri, hrl, hlt, hstrict⟩
        · refine Or.inr ⟨0, by simp, by omega, by simp [hrl], hrl ▸ hl, ?_⟩
          intro j hj
          omega
        · refine Or.inr ⟨k + 1, by simpa using hk, by omega, by simpa using hrl,
            lt_trans hlt hl, ?_⟩
          intro j hj
          match j with
          | 0 => simpa using hlt
          | j + 1 =>
            rw [List.getD_cons_succ]
            exact hstrict j (by omega)
    · rw [if_neg hl]
      push_neg at hl
      obtain ⟨ri, rl, hres, hlow, hle, hcase⟩ := ih (i0 + 1) bi bl
      refine ⟨ri, rl, hres, ?_, hle, ?_⟩
      · intro x hx
        rcases List.mem_cons.mp hx with rfl | hx
        · exact le_trans hle hl
        · exact hlow x hx
      · rcases hcase with ⟨hri, hrl⟩ | ⟨k, hk, hri, hrl, hlt, hstrict⟩
        · exact Or.inl ⟨hri, hrl⟩
        · refine Or.inr ⟨k + 1, by simpa using hk, by omega, by simpa using hrl,
            hlt, ?_⟩
          intro j hj
          match j with
          | 0 => simpa using lt_of_lt_of_le hlt hl
          | j + 1 =>
            rw [List.getD_cons_succ]
            exact hstrict j (by omega)

theorem getD_mem_of_lt (xs : List ℚ) (j : ℕ) (hj : j < xs.length) :
    xs.getD j 0 ∈ xs := by
  rw [List.getD_eq_getElem _ _ hj]
  exact List.getElem_mem _

/-- C3: for any non-empty sequence of truncated-training objective values,
the restart loop of `train_exact_gp` retains the candidate with the lowest
objective value, and on ties the earliest candidate (every strictly earlier
candidate has a strictly larger objective). -/
theorem selectRestart_picks_min (losses : List ℚ) (h : losses ≠ []) :
    ∃ i, selectRestart losses = some i ∧ i < losses.length ∧
      (∀ j, j < losses.length → losses.getD i 0 ≤ losses.getD j 0) ∧
      (∀ j, j < i → losses.getD i 0 < losses.getD j 0) := by
  match losses, h with
  | l :: ls, _ =>
    have hgo : restartGo 0 none (l :: ls) = restartGo 1 (some (0, l)) ls := rfl
    obtain ⟨ri, rl, hres, hlow, hle, hcase⟩ := restartGo_char ls 1 0 l
    refine ⟨ri, ?_, ?_, ?_, ?_⟩
    · simp [selectRestart, hgo, hres]
    · rcases hcase with ⟨hri, _⟩ | ⟨k, hk, hri, _, _, _⟩
      · simp [hri]
      · simp only [List.length_cons]
        omega
    · intro j hj
      rcases hcase with ⟨hri, hrl⟩ | ⟨k, hk, hri, hrl, hlt, hstrict⟩
      · subst hri
        match j with
        | 0 => simp [hrl]
        | j + 1 =>
          rw [List.getD_cons_zero, List.getD_cons_succ, ← hrl]
          exact hlow _ (getD_mem_of_lt _ _ (by simpa using hj))
      · subst hri
        have hri1 : (1 + k : ℕ) = k + 1 := by omega
        rw [hri1, List.getD_cons_succ, ← hrl]
        match j with
        | 0 => rw [List.getD_cons_zero]; exact hle
        | j + 1 =>
          rw [List.getD_cons_succ]
          exact hlow _ (getD_mem_of_lt _ _ (by simpa using hj))
    · intro j hj
      rcases hcase with ⟨hri, hrl⟩ | ⟨k, hk, hri, hrl, hlt, hstrict⟩
      · subst hri
        omega
      · subst hri
        have hri1 : (1 + k : ℕ) = k + 1 := by omega
        rw [hri1, List.getD_cons_succ, ← hrl]
        match j with
        | 0 => simpa using hlt
        | j + 1 =>
          rw [List.getD_cons_succ]
          exact hstrict j (by omega)

/-- Witness for `selectRestart_picks_min` at the claim's concrete example
`[5, 2, 3]`: the second candidate (index 1) is retained. -/
theorem selectRestart_picks_min_witness :
    (([5, 2, 3] : List ℚ) ≠ []) ∧ selectRestart [5, 2, 3] = some 1 ∧
    (∃ i, selectRestart [5, 2, 3] = some i ∧ i < ([5, 2, 3] : List ℚ).length ∧
      (∀ j, j < ([5, 2, 3] : List ℚ).length →
        ([5, 2, 3] : List ℚ).getD i 0 ≤ ([5, 2, 3] : List ℚ).getD j 0) ∧
      (∀ j, j < i → ([5, 2, 3] : List ℚ).getD i 0 < ([5, 2, 3] : List ℚ).getD j 0)) :=
  ⟨List.cons_ne_nil 5 [2, 3], rfl,
   selectRestart_picks_min [5, 2, 3] (List.cons_ne_nil 5 [2, 3])⟩

/-- C7: for every pair of aligned train/test tables and every feature or
target column (position `i`, train column `ctr`, test column `cte`),
`_normalize_by_train` first subtracts the train-column mean from both the
train and the test column; it then divides both centered columns by the
train column's standard deviation `sigma` exactly when `sigma > 0` (and
then `sigma ≠ 0`, so no division by zero occurs), and leaves a column with
non-positive `sigma` mean-shifted but undivided. -/
theorem normalize_by_train_guard (train test : List (String × List ℝ)) (i : ℕ)
    (ctr cte : String × List ℝ)
    (hi : (train.zip test)[i]? = some (ctr, cte))
    (htc : ctr.1 ∈ featureCols (train.map Prod.fst) ++ ["target"]) :
    ∃ sigma, sigma = colStd (ctr.2.map (fun x => x - colMean ctr.2)) ∧
      (0 < sigma →
        sigma ≠ 0 ∧
        (normalize_by_train train test).1[i]? =
          some (ctr.1, (ctr.2.map (fun x => x - colMean ctr.2)).map (fun x => x / sigma)) ∧
        (normalize_by_train train test).2[i]? =
          some (cte.1, (cte.2.map (fun x => x - colMean ctr.2)).map (fun x => x / sigma))) ∧
      (¬ 0 < sigma →
        (normalize_by_train train test).1[i]? =
          some (ctr.1, ctr.2.map (fun x => x - colMean ctr.2)) ∧
        (normalize_by_train train test).2[i]? =
          some (cte.1, cte.2.map (fun x => x - colMean ctr.2))) := by
  refine ⟨colStd (ctr.2.map (fun x => x - colMean ctr.2)), rfl, ?_, ?_⟩
  · intro hpos
    refine ⟨(ne_of_gt hpos), ?_, ?_⟩
    · simp only [normalize_by_train, List.getElem?_map, hi, Option.map_some']
      rw [if_pos htc]
      simp only [normalizeCol]
      rw [if_pos hpos]
    · simp only [normalize_by_train, List.getElem?_map, hi, Option.map_some']
      rw [if_pos htc]
      simp only [normalizeCol]
      rw [if_pos hpos]
  · intro hpos
    refine ⟨?_, ?_⟩
    · simp only [normalize_by_train, List.getElem?_map, hi, Option.map_some']
      rw [if_pos htc]
      simp only [normalizeCol]
      rw [if_neg hpos]
    · simp only [normalize_by_train, List.getElem?_map, hi, Option.map_some']
      rw [if_pos htc]
      simp only [normalizeCol]
      rw [if_neg hpos]

/-- Witness for `normalize_by_train_guard` at the one-feature tables
`train = [("0", [1, 3, 5])]`, `test = [("0", [2])]` (centered train column
`[-2, 0, 2]`, sample variance `4`, `sigma = 2`). -/
theorem normalize_by_train_guard_witness :
    (([(("0" : String), [(1 : ℝ), 3, 5])].zip [(("0" : String), [(2 : ℝ)])])[0]? =
      some (("0", [(1 : ℝ), 3, 5]), ("0", [(2 : ℝ)]))) ∧
    ((("0", [(1 : ℝ), 3, 5]) : String × List ℝ).1 ∈
      featureCols ([(("0" : String), [(1 : ℝ), 3, 5])].map Prod.fst) ++ ["target"]) ∧
    (∃ sigma,
      sigma = colStd ((("0", [(1 : ℝ), 3, 5]) : String × List ℝ).2.map
        (fun x => x - colMean (("0", [(1 : ℝ), 3, 5]) : String × List ℝ).2)) ∧
      (0 < sigma →
        sigma ≠ 0 ∧
        (normalize_by_train [("0", [(1 : ℝ), 3, 5])] [("0", [(2 : ℝ)])]).1[0]? =
          some ("0", ((("0", [(1 : ℝ), 3, 5]) : String × List ℝ).2.map
            (fun x => x - colMean (("0", [(1 : ℝ), 3, 5]) : String × List ℝ).2)).map
              (fun x => x / sigma)) ∧
        (normalize_by_train [("0", [(1 : ℝ), 3, 5])] [("0", [(2 : ℝ)])]).2[0]? =
          some ("0", ((("0", [(2 : ℝ)]) : String × List ℝ).2.map
            (fun x => x - colMean (("0", [(1 : ℝ), 3, 5]) : String × List ℝ).2)).map
              (fun x => x / sigma))) ∧
      (¬ 0 < sigma →
        (normalize_by_train [("0", [(1 : ℝ), 3, 5])] [("0", [(2 : ℝ)])]).1[0]? =
          some ("0", (("0", [(1 : ℝ), 3, 5]) : String × List ℝ).2.map
            (fun x => x - colMean (("0", [(1 : ℝ), 3, 5]) : String × List ℝ).2)) ∧
        (normalize_by_train [("0", [(1 : ℝ), 3, 5])] [("0", [(2 : ℝ)])]).2[0]? =
          some ("0", (("0", [(2 : ℝ)]) : String × List ℝ).2.map
            (fun x => x - colMean (("0", [(1 : ℝ), 3, 5]) : String × List ℝ).2)))) :=
  ⟨rfl, by decide,
   normalize_by_train_guard [("0", [1, 3, 5])] [("0", [2])] 0
     ("0", [1, 3, 5]) ("0", [2]) rfl (by decide)⟩

theorem determine_folds_one_four : determine_folds 1 4 = [0, 4] := by
  have h1 : ⌊((4 : ℕ) : ℚ) * 1⌋ = 4 := by
    rw [show ((4 : ℕ) : ℚ) * 1 = ((4 : ℤ) : ℚ) by norm_num, Int.floor_intCast]
  have h2 : pyRound (1 / (1 : ℚ)) = 1 := by
    rw [show (1 / (1 : ℚ)) = ((1 : ℤ) : ℚ) by norm_num, pyRound_intCast]
  simp only [determine_folds, h1, h2]
  decide

/-- C1 (amended): within a fold's attempt loop entered with `n_errors = k <
error_retry_limit`, an exception occurring before any repeat of the current
attempt has succeeded (tensor conversion failure, or the trainer raising at
repeat 0) appends an error record and re-executes the whole attempt from
scratch with `n_errors = k + 1`; but once at least one repeat of the
current attempt has succeeded, a subsequent exception appends an error
record and terminates the fold's attempt loop — the partially-completed
attempt is abandoned, not retried. -/
theorem attempt_retry_policy {M : Type} (pay : ℕ → ℕ → ℕ → M)
    (beh : ℕ → ℕ → AttemptOutcome) (fold n d repeats errLimit k : ℕ)
    (hrep : 1 ≤ repeats) (hk : k < errLimit) :
    (∀ tr, beh fold k = .tensorFail tr →
      foldLoopGo pay beh fold n d repeats errLimit (errLimit + 1 - k) k =
        Row.error tr fold n ((d : ℤ) - 2) ::
          foldLoopGo pay beh fold n d repeats errLimit (errLimit - k) (k + 1)) ∧
    (∀ tr, beh fold k = .trainerFail 0 tr →
      foldLoopGo pay beh fold n d repeats errLimit (errLimit + 1 - k) k =
        Row.error tr fold n ((d : ℤ) - 2) ::
          foldLoopGo pay beh fold n d repeats errLimit (errLimit - k) (k + 1)) ∧
    (∀ r tr, beh fold k = .trainerFail r tr → 1 ≤ r → r < repeats →
      foldLoopGo pay beh fold n d repeats errLimit (errLimit + 1 - k) k =
        (List.range r).map (fun j => Row.success fold j n d (pay fold k j)) ++
          [Row.error tr fold n ((d : ℤ) - 2)]) := by
  obtain ⟨fuel, hfuel⟩ : ∃ fuel, errLimit + 1 - k = fuel + 1 := ⟨errLimit - k, by omega⟩
  have hfuel2 : fuel = errLimit - k := by omega
  refine ⟨?_, ?_, ?_⟩
  · intro tr hbeh
    rw [hfuel, hfuel2]
    simp only [foldLoopGo, if_pos hk, runAttempt, hbeh]
    rfl
  · intro tr hbeh
    rw [hfuel, hfuel2]
    have hlt : 0 < repeats := hrep
    have herr : decide (0 < repeats) = true := decide_eq_true hlt
    simp only [foldLoopGo, if_pos hk, runAttempt, hbeh, Nat.zero_min,
      List.range_zero, List.map_nil, List.nil_append, if_pos hlt,
      Nat.lt_irrefl, decide_False, herr]
    rfl
  · intro r tr hbeh hr1 hrlt
    rw [hfuel]
    have hmin : min r repeats = r := Nat.min_eq_left hrlt.le
    have hpos : decide (0 < r) = true := decide_eq_true (by omega)
    simp only [foldLoopGo, if_pos hk, runAttempt, hbeh, hmin, if_pos hrlt, hpos]

/-- C1 counterexample: with `repeats = 2`, `error_retry_limit = 3`, one
fold, and external behavior that raises at repeat 1 of attempt 0 and would
succeed completely on any later attempt, `run_experiment` returns exactly
one success row and one error row for the fold and stops: although an
exception occurred and only one of the three budgeted attempts was used,
the attempt is not re-executed (a retried attempt would have added two
more success rows), and the attempt completed only 1 of its 2 repeats —
the partially-completed attempt is left unfinished, contradicting the
claim. -/
theorem run_experiment_no_retry_after_partial_success :
    run_experiment payZero behPartialFail 1 4 ["0", "1", "target"] false 2 3 =
      [Row.success 0 0 4 2 0, Row.error "boom" 0 4 0] ∧
    countSuccessF (run_experiment payZero behPartialFail 1 4 ["0", "1", "target"] false 2 3) 0 = 1 ∧
    countErrorF (run_experiment payZero behPartialFail 1 4 ["0", "1", "target"] false 2 3) 0 = 1 ∧
    (1 : ℕ) < 3 ∧ (1 : ℕ) ≠ 2 := by
  refine ⟨?_, ?_, ?_, by decide, by decide⟩ <;>
    · simp only [run_experiment, determine_folds_one_four]
      decide

/-- Witness for `attempt_retry_policy` at `repeats = 2`, `errLimit = 3`,
`k = 0`, with tensor conversion failing on every attempt. -/
theorem attempt_retry_policy_witness :
    (1 ≤ 2) ∧ (0 < 3) ∧
    ((∀ tr, (fun (_ : ℕ) (_ : ℕ) => AttemptOutcome.tensorFail "t") 0 0 = .tensorFail tr →
      foldLoopGo payZero (fun _ _ => AttemptOutcome.tensorFail "t") 0 4 2 2 3 (3 + 1 - 0) 0 =
        Row.error tr 0 4 ((2 : ℤ) - 2) ::
          foldLoopGo payZero (fun _ _ => AttemptOutcome.tensorFail "t") 0 4 2 2 3 (3 - 0) (0 + 1)) ∧
    (∀ tr, (fun (_ : ℕ) (_ : ℕ) => AttemptOutcome.tensorFail "t") 0 0 = .trainerFail 0 tr →
      foldLoopGo payZero (fun _ _ => AttemptOutcome.tensorFail "t") 0 4 2 2 3 (3 + 1 - 0) 0 =
        Row.error tr 0 4 ((2 : ℤ) - 2) ::
          foldLoopGo payZero (fun _ _ => AttemptOutcome.tensorFail "t") 0 4 2 2 3 (3 - 0) (0 + 1)) ∧
    (∀ r tr, (fun (_ : ℕ) (_ : ℕ) => AttemptOutcome.tensorFail "t") 0 0 = .trainerFail r tr →
      1 ≤ r → r < 2 →
      foldLoopGo payZero (fun _ _ => AttemptOutcome.tensorFail "t") 0 4 2 2 3 (3 + 1 - 0) 0 =
        (List.range r).map (fun j => Row.success 0 j 4 2 (payZero 0 0 j)) ++
          [Row.error tr 0 4 ((2 : ℤ) - 2)])) :=
  ⟨by decide, by decide,
   attempt_retry_policy payZero (fun _ _ => AttemptOutcome.tensorFail "t") 0 4 2 2 3 0
     (by decide) (by decide)⟩

theorem countP_flatMap {α β : Type} (p : β → Bool) (l : List α) (F : α → List β) :
    (l.flatMap F).countP p = (l.map (fun a => (F a).countP p)).sum := by
  induction l with
  | nil => rfl
  | cons a l ih => simp [List.flatMap_cons, List.countP_append, ih]

theorem runAttempt_tags {M : Type} (pay : ℕ → ℕ → ℕ → M) (beh : ℕ → ℕ → AttemptOutcome)
    (g n d repeats k : ℕ) :
    ∀ row ∈ (runAttempt pay beh g n d repeats k).1, rowFold row = g := by
  intro row hrow
  simp only [runAttempt] at hrow
  cases hbeh : beh g k with
  | tensorFail tr =>
    rw [hbeh] at hrow
    simp only [List.mem_singleton] at hrow
    subst hrow; rfl
  | trainerFail r tr =>
    rw [hbeh] at hrow
    simp only [List.mem_append, List.mem_map] at hrow
    rcases hrow with ⟨j, _, rfl⟩ | hrow
    · rfl
    · by_cases hlt : r < repeats
      · rw [if_pos hlt] at hrow
        simp only [List.mem_singleton] at hrow
        subst hrow; rfl
      · rw [if_neg hlt] at hrow
        simp at hrow
  | allOk =>
    rw [hbeh] at hrow
    simp only [List.mem_map] at hrow
    obtain ⟨j, _, rfl⟩ := hrow
    rfl

theorem foldLoopGo_tags {M : Type} (pay : ℕ → ℕ → ℕ → M) (beh : ℕ → ℕ → AttemptOutcome)
    (g n d repeats errLimit : ℕ) :
    ∀ fuel k, ∀ row ∈ foldLoopGo pay beh g n d repeats errLimit fuel k, rowFold row = g := by
  intro fuel
  induction fuel with
  | zero => intro k row hrow; simp [foldLoopGo] at hrow
  | succ fuel ih =>
    intro k row hrow
    simp only [foldLoopGo] at hrow
    by_cases hk : k < errLimit
    · rw [if_pos hk] at hrow
      rcases hma : runAttempt pay beh g n d repeats k with ⟨rows, succ, errored⟩
      rw [hma] at hrow
      have htag : ∀ row ∈ rows, rowFold row = g := by
        intro row h
        exact runAttempt_tags pay beh g n d repeats k row (by rw [hma]; exact h)
      match succ, errored with
      | true, _ => exact htag row hrow
      | false, true =>
        rcases List.mem_append.mp hrow with h | h
        · exact htag row h
        · exact ih (k + 1) row h
      | false, false =>
        rcases List.mem_append.mp hrow with h | h
        · exact htag row h
        · exact ih k row h
    · rw [if_neg hk] at hrow
      simp at hrow

theorem counts_zero_of_other_fold {M : Type} (rows : List (Row M)) (g f : ℕ)
    (htag : ∀ row ∈ rows, rowFold row = g) (hne : g ≠ f) :
    countSuccessF rows f = 0 ∧ countErrorF rows f = 0 := by
  constructor
  · refine List.countP_eq_zero.mpr ?_
    intro row hrow
    have := htag row hrow
    cases row with
    | success fold rep n2 d2 p2 =>
      simp only [rowFold] at this
      subst this
      simp [hne]
    | error tr fold n2 d2 => simp
  · refine List.countP_eq_zero.mpr ?_
    intro row hrow
    have := htag row hrow
    cases row with
    | success fold rep n2 d2 p2 => simp
    | error tr fold n2 d2 =>
      simp only [rowFold] at this
      subst this
      simp [hne]

theorem counts_fail_fold {M : Type} (pay : ℕ → ℕ → ℕ → M) (beh : ℕ → ℕ → AttemptOutcome)
    (f n d repeats errLimit : ℕ)
    (hfail : ∀ a, ∃ tr, beh f a = .trainerFail 0 tr) (hrep : 1 ≤ repeats) :
    ∀ fuel k, errLimit ≤ k + fuel →
      countSuccessF (foldLoopGo pay beh f n d repeats errLimit fuel k) f = 0 ∧
      countErrorF (foldLoopGo pay beh f n d repeats errLimit fuel k) f = errLimit - k := by
  intro fuel
  induction fuel with
  | zero =>
    intro k hk
    have : ¬(k < errLimit) := by omega
    constructor <;> simp [foldLoopGo, countSuccessF, countErrorF]
    omega
  | succ fuel ih =>
    intro k hk
    by_cases hklt : k < errLimit
    · obtain ⟨tr, htr⟩ := hfail k
      have hstep :
          foldLoopGo pay beh f n d repeats errLimit (fuel + 1) k =
            Row.error tr f n ((d : ℤ) - 2) ::
              foldLoopGo pay beh f n d repeats errLimit fuel (k + 1) := by
        have hlt : 0 < repeats := hrep
        have herr : decide (0 < repeats) = true := decide_eq_true hlt
        simp only [foldLoopGo, if_pos hklt, runAttempt, htr, Nat.zero_min,
          List.range_zero, List.map_nil, List.nil_append, if_pos hlt,
          Nat.lt_irrefl, decide_False, herr]
        rfl
      obtain ⟨ihs, ihe⟩ := ih (k + 1) (by omega)
      rw [hstep]
      constructor
      · simpa [countSuccessF, List.countP_cons] using ihs
      · have : countErrorF
            (Row.error tr f n ((d : ℤ) - 2) ::
              foldLoopGo pay beh f n d repeats errLimit fuel (k + 1)) f =
            countErrorF (foldLoopGo pay beh f n d repeats errLimit fuel (k + 1)) f + 1 := by
          simp [countErrorF, List.countP_cons]
        rw [this, ihe]
        omega
    · have hout : foldLoopGo pay beh f n d repeats errLimit (fuel + 1) k = [] := by
        simp [foldLoopGo, if_neg hklt]
      rw [hout]
      constructor <;> simp [countSuccessF, countErrorF]
      omega

theorem ok_fold_rows {M : Type} (pay : ℕ → ℕ → ℕ → M) (beh : ℕ → ℕ → AttemptOutcome)
    (g n d repeats errLimit : ℕ)
    (hok : beh g 0 = .allOk) (hrep : 1 ≤ repeats) (herr : 1 ≤ errLimit) :
    foldLoop pay beh g n d repeats errLimit =
      (List.range repeats).map (fun j => Row.success g j n d (pay g 0 j)) := by
  obtain ⟨fuel, hfuel⟩ : ∃ fuel, errLimit + 1 = fuel + 1 := ⟨errLimit, rfl⟩
  have hlt : 0 < errLimit := herr
  have hsucc : decide (0 < repeats) = true := decide_eq_true hrep
  simp only [foldLoop, foldLoopGo, if_pos hlt, runAttempt, hok, hsucc]

theorem counts_ok_fold {M : Type} (pay : ℕ → ℕ → ℕ → M) (beh : ℕ → ℕ → AttemptOutcome)
    (g n d repeats errLimit : ℕ)
    (hok : beh g 0 = .allOk) (hrep : 1 ≤ repeats) (herr : 1 ≤ errLimit) :
    countSuccessF (foldLoop pay beh g n d repeats errLimit) g = repeats ∧
    countErrorF (foldLoop pay beh g n d repeats errLimit) g = 0 := by
  rw [ok_fold_rows pay beh g n d repeats errLimit hok hrep herr]
  constructor
  · rw [countSuccessF, List.countP_map]
    have : ∀ j ∈ List.range repeats,
        ((fun r => match r with
          | Row.success fold _ _ _ _ => decide (fold = g)
          | Row.error _ _ _ _ => false) ∘
          (fun j => Row.success g j n d (pay g 0 j))) j = true := by
      intro j _
      simp
    rw [List.countP_eq_length.mpr this, List.length_range]
  · rw [countErrorF, List.countP_map]
    have : ∀ j ∈ List.range repeats,
        ¬ ((fun r => match r with
          | Row.success _ _ _ _ _ => false
          | Row.error _ fold _ _ => decide (fold = g)) ∘
          (fun j => Row.success g j n d (pay g 0 j))) j = true := by
      intro j _
      simp
    rw [List.countP_eq_zero.mpr this]

theorem sum_map_range_single (n f c : ℕ) (φ : ℕ → ℕ) (hf : f < n)
    (hφf : φ f = c) (hφ : ∀ g, g ≠ f → φ g = 0) :
    ((List.range n).map φ).sum = c := by
  induction n with
  | zero => omega
  | succ m ih =>
    rw [List.range_succ, List.map_append, List.sum_append]
    by_cases h : f = m
    · subst h
      have hz : ((List.range f).map φ).sum = 0 := by
        refine List.sum_eq_zero ?_
        intro x hx
        obtain ⟨g, hg, rfl⟩ := List.mem_map.mp hx
        exact hφ g (by have := List.mem_range.mp hg; omega)
      simp [hz, hφf]
    · have hf' : f < m := by omega
      rw [ih hf']
      simp [hφ m (by omega)]

/-- C2: with cross-validation on, a positive repeat count and retry budget,
and external behavior in which the trainer raises at the first repeat of
every attempt of fold `f` while every other fold's first attempt succeeds
completely, `run_experiment` returns (it is a total function — per-fold
failures never escape): the table has exactly `error_repeats` error rows
tagged `fold = f`, zero success rows for fold `f`, and, for every other
processed fold `g`, exactly `repeats` success rows and zero error rows. -/
theorem run_experiment_failure_containment {M : Type} (pay : ℕ → ℕ → ℕ → M)
    (beh : ℕ → ℕ → AttemptOutcome) (split : ℚ) (N : ℕ) (cols : List String)
    (repeats errLimit f : ℕ)
    (hrep : 1 ≤ repeats) (herr : 1 ≤ errLimit)
    (hf : f < (determine_folds split N).length - 1)
    (hfail : ∀ a, ∃ tr, beh f a = AttemptOutcome.trainerFail 0 tr)
    (hok : ∀ g, g ≠ f → beh g 0 = AttemptOutcome.allOk) :
    countErrorF (run_experiment pay beh split N cols true repeats errLimit) f = errLimit ∧
    countSuccessF (run_experiment pay beh split N cols true repeats errLimit) f = 0 ∧
    ∀ g, g < (determine_folds split N).length - 1 → g ≠ f →
      countSuccessF (run_experiment pay beh split N cols true repeats errLimit) g = repeats ∧
      countErrorF (run_experiment pay beh split N cols true repeats errLimit) g = 0 := by
  have hrun : run_experiment pay beh split N cols true repeats errLimit =
      (List.range ((determine_folds split N).length - 1)).flatMap
        (fun fold => foldLoop pay beh fold N (featureCols cols).length repeats errLimit) := by
    simp [run_experiment]
  have htags : ∀ g : ℕ, ∀ row ∈ foldLoop pay beh g N (featureCols cols).length repeats errLimit,
      rowFold row = g := by
    intro g row hrow
    exact foldLoopGo_tags pay beh g N (featureCols cols).length repeats errLimit
      (errLimit + 1) 0 row hrow
  have hzero : ∀ g h : ℕ, g ≠ h →
      countSuccessF (foldLoop pay beh g N (featureCols cols).length repeats errLimit) h = 0 ∧
      countErrorF (foldLoop pay beh g N (featureCols cols).length repeats errLimit) h = 0 :=
    fun g h hne => counts_zero_of_other_fold _ g h (htags g) hne
  have hfailcounts :
      countSuccessF (foldLoop pay beh f N (featureCols cols).length repeats errLimit) f = 0 ∧
      countErrorF (foldLoop pay beh f N (featureCols cols).length repeats errLimit) f =
        errLimit := by
    obtain ⟨hs, he⟩ := counts_fail_fold pay beh f N (featureCols cols).length repeats errLimit
      hfail hrep (errLimit + 1) 0 (by omega)
    exact ⟨hs, by rw [foldLoop, he]; omega⟩
  rw [hrun]
  refine ⟨?_, ?_, ?_⟩
  · rw [countErrorF, countP_flatMap]
    refine sum_map_range_single _ f errLimit _ hf ?_ ?_
    · exact hfailcounts.2
    · intro g hg
      exact (hzero g f hg).2
  · rw [countSuccessF, countP_flatMap]
    refine sum_map_range_single _ f 0 _ hf ?_ ?_
    · exact hfailcounts.1
    · intro g hg
      exact (hzero g f hg).1
  · intro g hglt hgf
    obtain ⟨hs, he⟩ := counts_ok_fold pay beh g N (featureCols cols).length repeats errLimit
      (hok g hgf) hrep herr
    constructor
    · rw [countSuccessF, countP_flatMap]
      refine sum_map_range_single _ g repeats _ hglt ?_ ?_
      · exact hs
      · intro h hh
        exact (hzero h g hh).1
    · rw [countErrorF, countP_flatMap]
      refine sum_map_range_single _ g 0 _ hglt ?_ ?_
      · exact he
      · intro h hh
        exact (hzero h g hh).2

/-- Witness for `run_experiment_failure_containment`: `split = 1/3`,
`N = 9` (3 folds), fold 1 always failing, `repeats = 2`,
`error_repeats = 3`. -/
theorem run_experiment_failure_containment_witness :
    (1 ≤ 2) ∧ (1 ≤ 3) ∧ (1 < (determine_folds (1/3) 9).length - 1) ∧
    (countErrorF (run_experiment payZero behFoldOneFails (1/3) 9 ["0", "target"] true 2 3) 1 = 3 ∧
     countSuccessF (run_experiment payZero behFoldOneFails (1/3) 9 ["0", "target"] true 2 3) 1 = 0 ∧
     ∀ g, g < (determine_folds (1/3) 9).length - 1 → g ≠ 1 →
       countSuccessF (run_experiment payZero behFoldOneFails (1/3) 9 ["0", "target"] true 2 3) g
         = 2 ∧
       countErrorF (run_experiment payZero behFoldOneFails (1/3) 9 ["0", "target"] true 2 3) g
         = 0) :=
  ⟨by decide, by decide, by simp only [determine_folds_third_nine]; decide,
   run_experiment_failure_containment payZero behFoldOneFails (1/3) 9 ["0", "target"] 2 3 1
     (by decide) (by decide) (by simp only [determine_folds_third_nine]; decide)
     (fun _ => ⟨"E", rfl⟩)
     (fun g hg =>
       match g, hg with
       | 0, _ => rfl
       | 1, hg => absurd rfl hg
       | _ + 2, _ => rfl)⟩

theorem determine_folds_half_six : determine_folds (1/2) 6 = [0, 3, 6] := by
  have h1 : ⌊((6 : ℕ) : ℚ) * (1/2)⌋ = 3 := by
    rw [show ((6 : ℕ) : ℚ) * (1/2) = ((3 : ℤ) : ℚ) by norm_num, Int.floor_intCast]
  have h2 : pyRound (1 / (1/2 : ℚ)) = 2 := by
    rw [show (1 / (1/2 : ℚ)) = ((2 : ℤ) : ℚ) by norm_num, pyRound_intCast]
  simp only [determine_folds, h1, h2]
  decide

/-- C8: the error records of `run_experiment` do carry the full trace, the
fold index and `n = len(dataset)`, but their `d` field is
`len(features) - 2`, not the feature count `len(features)` that success
records carry.  Concretely (columns `0,1,2,index,target`, so 3 feature
columns; fold 0 succeeds, fold 1 always raises): the success row has
`d = 3` while both error rows have `d = 1 ≠ 3`.  The claim (and the spec's
"feature count") matches the success-row convention, so the `- 2` in the
error branch (line 206 of `rp_experiments.py`) contradicts it. -/
theorem error_row_d_mismatch :
    run_experiment payZero behFoldOneTrace (1/2) 6 ["0", "1", "2", "index", "target"] true 1 2 =
      [Row.success 0 0 6 3 0, Row.error "TRACE" 1 6 1, Row.error "TRACE" 1 6 1] ∧
    (featureCols ["0", "1", "2", "index", "target"]).length = 3 ∧
    ((1 : ℤ) ≠ 3) := by
  refine ⟨?_, by decide, by decide⟩
  simp only [run_experiment, determine_folds_half_six]
  decide

/-- C9 counterexample: the tag the claim spells `"small-to-medium"` is not
accepted — `run_experiment_suite` raises
`ValueError("Unknown set of datasets")` for it; the tag the code accepts is
`"smalltomedium"`. -/
theorem resolve_dataset_group_hyphen_counterexample :
    resolve_dataset_group "small-to-medium" = .error "Unknown set of datasets" ∧
    resolve_dataset_group "smalltomedium" =
      .ok (get_small_datasets ++ get_medium_datasets) :=
  ⟨rfl, rfl⟩

/-- C9, amended: `run_experiment_suite` accepts exactly the five tags
`"small"`, `"medium"`, `"big"`, `"smalltomedium"` (not `"small-to-medium"`)
and `"all"`, resolving each to its ordered dataset list (with
`"smalltomedium"` resolving to the small datasets followed by the medium
ones), and raises the configuration error for every other string. -/
theorem resolve_dataset_group_spec :
    resolve_dataset_group "small" = .ok get_small_datasets ∧
    resolve_dataset_group "medium" = .ok get_medium_datasets ∧
    resolve_dataset_group "big" = .ok get_big_datasets ∧
    resolve_dataset_group "smalltomedium" =
      .ok (get_small_datasets ++ get_medium_datasets) ∧
    resolve_dataset_group "all" =
      .ok (get_small_datasets ++ get_medium_datasets ++ get_big_datasets) ∧
    ∀ s : String, s ≠ "small" → s ≠ "medium" → s ≠ "big" → s ≠ "smalltomedium" →
      s ≠ "all" → resolve_dataset_group s = .error "Unknown set of datasets" := by
  refine ⟨rfl, rfl, rfl, rfl, rfl, ?_⟩
  intro s h1 h2 h3 h4 h5
  simp only [resolve_dataset_group, if_neg h1, if_neg h2, if_neg h3, if_neg h4, if_neg h5]

/-- Witness for `resolve_dataset_group_spec`, instantiating the
unrecognized-tag clause at the claim's hyphenated spelling. -/
theorem resolve_dataset_group_spec_witness :
    (("small-to-medium" : String) ≠ "small") ∧
    (("small-to-medium" : String) ≠ "medium") ∧
    (("small-to-medium" : String) ≠ "big") ∧
    (("small-to-medium" : String) ≠ "smalltomedium") ∧
    (("small-to-medium" : String) ≠ "all") ∧
    resolve_dataset_group "small-to-medium" = .error "Unknown set of datasets" :=
  ⟨by decide, by decide, by decide, by decide, by decide,
   resolve_dataset_group_spec.2.2.2.2.2 "small-to-medium"
     (by decide) (by decide) (by decide) (by decide) (by decide)⟩

end RPExperiments
